import Mathlib

/-!
Verification of the Stiefel-manifold operator module (`stiefel.py`).

The source works over dense numpy float matrices.  We embed it over
`Matrix (Fin n) (Fin p) ℚ`, i.e. in exact arithmetic:

* scalar-matrix products such as `1.5 * X` and elementwise divisions such
  as `M / 2` become rational scalar actions `(3/2 : ℚ) • X`, `((1:ℚ)/2) • M`;
* `np.eye(p)` becomes the identity matrix `1`;
* the Frobenius norm `np.linalg.norm(M, 'fro')` is the square root of the
  sum of squared entries; the square root of a rational is irrational in
  general, so norm comparisons against a nonnegative threshold `t` are
  embedded as comparisons of the squared norm `frobSq M` against `t ^ 2`
  (both sides of the original comparison are nonnegative, so this is exact);
* the QR, SVD and standard-normal-PRNG collaborators from numpy are passed
  explicitly as function arguments, and the properties that depend on them
  are stated under the contracts the spec assigns to those collaborators.
-/

open Matrix

namespace stiefel

/-- The manifold descriptor built by `stiefel.__init__`: it stores `n`, `p`
and the derived `dim = n * p`.  The constructor performs no validation,
so it is a total function of the two integers. -/
structure Desc where
  _n : ℤ
  _p : ℤ
  dim : ℤ
  deriving DecidableEq, Repr

/-- `stiefel.__init__(n, p)`: stores `n`, `p` and `dim = n*p`;
no dimension check is performed. -/
def init (n p : ℤ) : Desc := ⟨n, p, n * p⟩

/-- `Phi(M) = (M + M.T)/2`, the symmetrizer. -/
def Phi {a : ℕ} (M : Matrix (Fin a) (Fin a) ℚ) : Matrix (Fin a) (Fin a) ℚ :=
  ((1 : ℚ)/2) • (M + Mᵀ)

/-- `A(X) = 1.5 * X - X @ ((X.T @ X) / 2)`, the retraction field. -/
def A {n p : ℕ} (X : Matrix (Fin n) (Fin p) ℚ) : Matrix (Fin n) (Fin p) ℚ :=
  ((3 : ℚ)/2) • X - X * (((1 : ℚ)/2) • (Xᵀ * X))

/-- `JA(X, G) = G - X @ Phi(X.T @ G)`, the metric tangent projector. -/
def JA {n p : ℕ} (X G : Matrix (Fin n) (Fin p) ℚ) : Matrix (Fin n) (Fin p) ℚ :=
  G - X * Phi (Xᵀ * G)

/-- `JA_exact(X, G) = 1.5*G - 0.5 * G @ (X.T @ X) - X @ Phi(X.T @ G)`,
the differential of the retraction field `A`. -/
def JA_exact {n p : ℕ} (X G : Matrix (Fin n) (Fin p) ℚ) : Matrix (Fin n) (Fin p) ℚ :=
  ((3 : ℚ)/2) • G - ((1 : ℚ)/2) • (G * (Xᵀ * X)) - X * Phi (Xᵀ * G)

/-- `JC(X, Lambda) = X @ Phi(Lambda)`, the adjoint projection. -/
def JC {n p : ℕ} (X : Matrix (Fin n) (Fin p) ℚ) (Lambda : Matrix (Fin p) (Fin p) ℚ) :
    Matrix (Fin n) (Fin p) ℚ :=
  X * Phi Lambda

/-- `C(X) = X.T @ X - np.eye(p)`, the constraint residual. -/
def C {n p : ℕ} (X : Matrix (Fin n) (Fin p) ℚ) : Matrix (Fin p) (Fin p) ℚ :=
  Xᵀ * X - 1

/-- Sum of squared entries of a matrix: the square of the Frobenius norm.
`Feas_eval(X) = np.linalg.norm(C(X), 'fro')` is embedded through its square
`frobSq (C X)`; a comparison `Feas_eval X > t` with `t ≥ 0` is embedded as
`frobSq (C X) > t ^ 2`. -/
def frobSq {a b : ℕ} (M : Matrix (Fin a) (Fin b) ℚ) : ℚ :=
  ∑ i, ∑ j, (M i j) ^ 2

/-- The squared feasibility error `Feas_eval(X) ^ 2`. -/
def Feas_eval_sq {n p : ℕ} (X : Matrix (Fin n) (Fin p) ℚ) : ℚ :=
  frobSq (C X)

/-- `Init_point(Xinit)` with an explicit `Xinit`: if the Frobenius norm of
`Xinit.T @ Xinit - eye(p)` exceeds `1e-6` (squared: `(1/1000000)^2`),
return the `Q` factor of the QR collaborator, else return `Xinit` unchanged.
The QR collaborator `qr` returns the pair `(Q, R)`. -/
def Init_point {n p : ℕ}
    (qr : Matrix (Fin n) (Fin p) ℚ → Matrix (Fin n) (Fin p) ℚ × Matrix (Fin p) (Fin p) ℚ)
    (Xinit : Matrix (Fin n) (Fin p) ℚ) : Matrix (Fin n) (Fin p) ℚ :=
  if Feas_eval_sq Xinit > ((1 : ℚ)/1000000) ^ 2 then (qr Xinit).1 else Xinit

/-- `Post_process(X)`: thin SVD `X = U * diag S * Vh` via the SVD
collaborator (returning `(U, S, Vh)` with `U : n×p`, `S : p`, `Vh : p×p`,
numpy's `VX` being `Vᵀ`), then return `U @ Vh`. -/
def Post_process {n p : ℕ}
    (svd : Matrix (Fin n) (Fin p) ℚ →
      Matrix (Fin n) (Fin p) ℚ × (Fin p → ℚ) × Matrix (Fin p) (Fin p) ℚ)
    (X : Matrix (Fin n) (Fin p) ℚ) : Matrix (Fin n) (Fin p) ℚ :=
  (svd X).1 * (svd X).2.2

/-- `Init_point()` called with no `Xinit`: the source draws
`Xinit = np.random.randn(n, p)` from the ambient PRNG and then proceeds as
`Init_point`.  The PRNG collaborator is embedded as explicit state passing:
`d` maps the current PRNG state to the drawn matrix and the advanced state. -/
def Init_point_draw {n p : ℕ} {σ : Type}
    (qr : Matrix (Fin n) (Fin p) ℚ → Matrix (Fin n) (Fin p) ℚ × Matrix (Fin p) (Fin p) ℚ)
    (d : σ → Matrix (Fin n) (Fin p) ℚ × σ) (s : σ) :
    Matrix (Fin n) (Fin p) ℚ × σ :=
  (Init_point qr (d s).1, (d s).2)

/-- A call to one of the stateless operators in a world that carries the
ambient PRNG state `s`: the operator is applied to its explicit arguments
and the state is passed through untouched. -/
def callOp {σ α β : Type} (f : α → β) (s : σ) (x : α) : β × σ := (f x, s)

end stiefel

/-- A dynamically shaped dense matrix, as numpy sees one: a shape
`(rows, cols)` plus an entry function (entries outside the shape are
irrelevant padding). Used to embed the source's behaviour on arguments
whose shape does not match, which the dependently-typed model above cannot
even express. -/
structure NMat where
  rows : ℕ
  cols : ℕ
  entry : ℕ → ℕ → ℚ

namespace NMat

/-- numpy broadcasting of a single dimension: equal sizes pass through, a
size-1 dimension is stretched to the other, anything else is an error. -/
def bdim (a b : ℕ) : Option ℕ :=
  if a = b then some a else if a = 1 then some b else if b = 1 then some a else none

/-- Index adjustment for a broadcast dimension of original size `d`. -/
def bidx (d i : ℕ) : ℕ := if d = 1 then 0 else i

/-- numpy elementwise addition with broadcasting; `none` is numpy's
`ValueError: operands could not be broadcast together`. -/
def nadd (A B : NMat) : Option NMat :=
  match bdim A.rows B.rows, bdim A.cols B.cols with
  | some r, some c =>
      some ⟨r, c, fun i j =>
        A.entry (bidx A.rows i) (bidx A.cols j) + B.entry (bidx B.rows i) (bidx B.cols j)⟩
  | _, _ => none

/-- numpy transpose of a dynamically shaped matrix. -/
def ntranspose (A : NMat) : NMat := ⟨A.cols, A.rows, fun i j => A.entry j i⟩

/-- Scalar multiple of a dynamically shaped matrix (`M / 2` is `(1/2) * M`). -/
def nsmul (q : ℚ) (A : NMat) : NMat := ⟨A.rows, A.cols, fun i j => q * A.entry i j⟩

/-- `Phi(M) = (M + M.T)/2` exactly as numpy executes it on a
dynamically shaped `M`: no shape check is made, the addition broadcasts. -/
def PhiDyn (M : NMat) : Option NMat :=
  (nadd M (ntranspose M)).map (nsmul ((1 : ℚ)/2))

end NMat

open stiefel

/-- C1: every feasible `X` (with `XᵀX = I`) is a fixed point of the
retraction field: `A X = X`. -/
theorem A_fixed_point_at_feasible {n p : ℕ} (X : Matrix (Fin n) (Fin p) ℚ)
    (h : Xᵀ * X = 1) : A X = X := by
  rw [A, h]
  rw [Matrix.mul_smul, Matrix.mul_one]
  module

/-- Witness for C1 at the concrete feasible point `X = [[1]]` (n=1, p=1). -/
theorem A_fixed_point_at_feasible_witness :
    (!![(1:ℚ)])ᵀ * !![(1:ℚ)] = 1 ∧ A !![(1:ℚ)] = !![(1:ℚ)] :=
  ⟨by simp [Matrix.mul_apply, ← Matrix.ext_iff, Fin.forall_fin_one],
   A_fixed_point_at_feasible !![(1:ℚ)]
     (by simp [Matrix.mul_apply, ← Matrix.ext_iff, Fin.forall_fin_one])⟩

/-- C9: at a feasible `X` (with `XᵀX = I`), the exact differential
`JA_exact` coincides with the metric projector `JA` on every direction `G`. -/
theorem JA_exact_eq_JA_at_feasible {n p : ℕ} (X G : Matrix (Fin n) (Fin p) ℚ)
    (h : Xᵀ * X = 1) : JA_exact X G = JA X G := by
  rw [JA_exact, JA, h, Matrix.mul_one]
  module

/-- Witness for C9 at `X = [[1]]`, `G = [[5]]`. -/
theorem JA_exact_eq_JA_at_feasible_witness :
    (!![(1:ℚ)])ᵀ * !![(1:ℚ)] = 1 ∧ JA_exact !![(1:ℚ)] !![(5:ℚ)] = JA !![(1:ℚ)] !![(5:ℚ)] :=
  ⟨by simp [Matrix.mul_apply, ← Matrix.ext_iff, Fin.forall_fin_one],
   JA_exact_eq_JA_at_feasible !![(1:ℚ)] !![(5:ℚ)]
     (by simp [Matrix.mul_apply, ← Matrix.ext_iff, Fin.forall_fin_one])⟩

/-- C10: for every `X` (feasible or not), the retraction field is the
half-step Lagrangian feasibility correction `A X = X - 0.5 • JC X (C X)`. -/
theorem A_eq_half_step_correction {n p : ℕ} (X : Matrix (Fin n) (Fin p) ℚ) :
    A X = X - ((1 : ℚ)/2) • JC X (C X) := by
  rw [A, JC, C, Phi]
  simp only [Matrix.transpose_sub, Matrix.transpose_mul, Matrix.transpose_transpose,
    Matrix.transpose_one, Matrix.mul_smul, Matrix.smul_mul, Matrix.mul_add,
    Matrix.add_mul, Matrix.mul_sub, Matrix.sub_mul, Matrix.mul_one, Matrix.one_mul,
    Matrix.mul_assoc, smul_add, smul_sub, smul_smul]
  module

/-- C3: at a feasible `X`, the projected direction `JA X G` lies in the
tangent space: `Phi (Xᵀ * JA X G) = 0`. -/
theorem JA_tangent_at_feasible {n p : ℕ} (X G : Matrix (Fin n) (Fin p) ℚ)
    (h : Xᵀ * X = 1) : Phi (Xᵀ * JA X G) = 0 := by
  have hXJA : Xᵀ * JA X G = Xᵀ * G - Phi (Xᵀ * G) := by
    rw [JA, Matrix.mul_sub, ← Matrix.mul_assoc, h, Matrix.one_mul]
  rw [hXJA, Phi, Phi, Matrix.transpose_sub, Matrix.transpose_smul,
    Matrix.transpose_add, Matrix.transpose_transpose, Matrix.transpose_mul,
    Matrix.transpose_transpose]
  module

/-- Witness for C3 at `X = [[1]]`, `G = [[7]]`. -/
theorem JA_tangent_at_feasible_witness :
    (!![(1:ℚ)])ᵀ * !![(1:ℚ)] = 1 ∧ Phi ((!![(1:ℚ)])ᵀ * JA !![(1:ℚ)] !![(7:ℚ)]) = 0 :=
  ⟨by simp [Matrix.mul_apply, ← Matrix.ext_iff, Fin.forall_fin_one],
   JA_tangent_at_feasible !![(1:ℚ)] !![(7:ℚ)]
     (by simp [Matrix.mul_apply, ← Matrix.ext_iff, Fin.forall_fin_one])⟩

/-- The squared Frobenius norm of the zero matrix is zero. -/
theorem frobSq_zero {a b : ℕ} : frobSq (0 : Matrix (Fin a) (Fin b) ℚ) = 0 := by
  simp [frobSq]

/-- C4 (amended): `Init_point` returns `Xinit` unchanged when the
feasibility error is at most `1e-6`, otherwise returns the QR collaborator's
`Q` factor; when that `Q` has orthonormal columns the returned point has
feasibility error at most `1e-6` (squared comparison of the Frobenius norm). -/
theorem Init_point_feasibility {n p : ℕ}
    (qr : Matrix (Fin n) (Fin p) ℚ → Matrix (Fin n) (Fin p) ℚ × Matrix (Fin p) (Fin p) ℚ)
    (X : Matrix (Fin n) (Fin p) ℚ)
    (hq : ((qr X).1)ᵀ * (qr X).1 = 1) :
    (Feas_eval_sq X ≤ ((1 : ℚ)/1000000) ^ 2 → Init_point qr X = X)
    ∧ (((1 : ℚ)/1000000) ^ 2 < Feas_eval_sq X → Init_point qr X = (qr X).1)
    ∧ Feas_eval_sq (Init_point qr X) ≤ ((1 : ℚ)/1000000) ^ 2 := by
  by_cases hch : Feas_eval_sq X > ((1 : ℚ)/1000000) ^ 2
  · have hres : Init_point qr X = (qr X).1 := by
      rw [Init_point, if_pos hch]
    refine ⟨fun hle => absurd hch (not_lt.mpr hle), fun _ => hres, ?_⟩
    rw [hres, Feas_eval_sq, C, hq, sub_self, frobSq_zero]
    positivity
  · have hres : Init_point qr X = X := by
      rw [Init_point, if_neg hch]
    exact ⟨fun _ => hres, fun hlt => absurd hlt hch, by rw [hres]; exact not_lt.mp hch⟩

/-- Witness for C4 at `X = [[1]]` (n=1, p=1), with the constant QR
collaborator returning `Q = [[1]]`. -/
theorem Init_point_feasibility_witness :
    (((fun _ : Matrix (Fin 1) (Fin 1) ℚ => (!![(1:ℚ)], !![(1:ℚ)])) !![(1:ℚ)]).1ᵀ *
        ((fun _ : Matrix (Fin 1) (Fin 1) ℚ => (!![(1:ℚ)], !![(1:ℚ)])) !![(1:ℚ)]).1 = 1)
    ∧ ((Feas_eval_sq !![(1:ℚ)] ≤ ((1 : ℚ)/1000000) ^ 2 →
        Init_point (fun _ => (!![(1:ℚ)], !![(1:ℚ)])) !![(1:ℚ)] = !![(1:ℚ)])
      ∧ (((1 : ℚ)/1000000) ^ 2 < Feas_eval_sq !![(1:ℚ)] →
        Init_point (fun _ => (!![(1:ℚ)], !![(1:ℚ)])) !![(1:ℚ)] =
          ((fun _ : Matrix (Fin 1) (Fin 1) ℚ => (!![(1:ℚ)], !![(1:ℚ)])) !![(1:ℚ)]).1)
      ∧ Feas_eval_sq (Init_point (fun _ => (!![(1:ℚ)], !![(1:ℚ)])) !![(1:ℚ)]) ≤
          ((1 : ℚ)/1000000) ^ 2) :=
  ⟨by simp [Matrix.mul_apply, ← Matrix.ext_iff, Fin.forall_fin_one],
   Init_point_feasibility (fun _ => (!![(1:ℚ)], !![(1:ℚ)])) !![(1:ℚ)]
     (by simp [Matrix.mul_apply, ← Matrix.ext_iff, Fin.forall_fin_one])⟩

/-- Counterexample to C1's strict bound in C4 as stated: at the boundary
point `X = [[1],[1/1000]]` the feasibility error is exactly `1e-6`, the QR
branch is not taken (the code tests strictly `> 1e-6`), and the returned
point has feasibility error equal to — not strictly below — `1e-6`, even
though the QR collaborator used returns an orthonormal `Q` at this input. -/
theorem Init_point_strict_bound_counterexample :
    (((fun _ : Matrix (Fin 2) (Fin 1) ℚ => (!![(1:ℚ); 0], !![(0:ℚ)])) !![(1:ℚ); 1/1000]).1ᵀ *
        ((fun _ : Matrix (Fin 2) (Fin 1) ℚ => (!![(1:ℚ); 0], !![(0:ℚ)])) !![(1:ℚ); 1/1000]).1 = 1)
    ∧ Init_point (fun _ => (!![(1:ℚ); 0], !![(0:ℚ)])) !![(1:ℚ); 1/1000] = !![(1:ℚ); 1/1000]
    ∧ ¬ (Feas_eval_sq (Init_point (fun _ => (!![(1:ℚ); 0], !![(0:ℚ)])) !![(1:ℚ); 1/1000])
          < ((1 : ℚ)/1000000) ^ 2) := by
  have hfe : Feas_eval_sq !![(1:ℚ); 1/1000] = ((1 : ℚ)/1000000) ^ 2 := by
    norm_num [Feas_eval_sq, frobSq, C, Matrix.mul_apply, Matrix.one_apply,
      Fin.sum_univ_two, Fin.sum_univ_one, Matrix.vecHead, Matrix.vecTail]
  have hres : Init_point (fun _ => (!![(1:ℚ); 0], !![(0:ℚ)])) !![(1:ℚ); 1/1000]
      = !![(1:ℚ); 1/1000] := by
    rw [Init_point, if_neg]
    rw [hfe]
    exact lt_irrefl _
  refine ⟨?_, hres, ?_⟩
  · simp [Matrix.mul_apply, ← Matrix.ext_iff, Fin.forall_fin_one, Fin.sum_univ_two]
  · rw [hres, hfe]
    exact lt_irrefl _

/-- C6: the constructor performs no dimension validation: `init 3 5`
(with `p = 5 > n = 3`) succeeds and produces the descriptor
`(n = 3, p = 5, dim = 15)` instead of failing. -/
theorem init_accepts_p_gt_n : init 3 5 = ⟨3, 5, 15⟩ := rfl

/-- C2: `JA_exact X G` is the exact degree-1 coefficient in `t` of
`A (X + t • G)`: the remainder `A (X + t • G) - A X - t • JA_exact X G`
is `t^2` times an explicit matrix polynomial in `t`, so it contains only
terms of degree at least 2 in `t`. -/
theorem JA_exact_is_differential_of_A {n p : ℕ} (X G : Matrix (Fin n) (Fin p) ℚ)
    (t : ℚ) :
    A (X + t • G) - A X - t • JA_exact X G
      = t ^ 2 • ((-(1 : ℚ)/2) • (G * (Gᵀ * X) + G * (Xᵀ * G) + X * (Gᵀ * G))
          + t • ((-(1 : ℚ)/2) • (G * (Gᵀ * G)))) := by
  rw [A, A, JA_exact, Phi]
  simp only [Matrix.transpose_add, Matrix.transpose_smul, Matrix.transpose_mul,
    Matrix.transpose_transpose, Matrix.mul_smul, Matrix.smul_mul, Matrix.mul_add,
    Matrix.add_mul, Matrix.mul_sub, Matrix.sub_mul, Matrix.mul_one, Matrix.one_mul,
    Matrix.mul_assoc, smul_add, smul_sub, smul_smul]
  module

/-- C5: (general part) whenever the SVD collaborator returns `U` with
orthonormal columns and an orthogonal `Vh`, `Post_process` returns a matrix
with orthonormal columns; (concrete part) for `n = 3`, `p = 1`,
`X = [[2],[0],[0]]`, any SVD collaborator output `(U, S, Vh)` satisfying the
thin-SVD contract at `X` (reconstruction, orthonormal `U`, orthogonal `Vh`,
nonnegative singular values) makes `Post_process X = [[1],[0],[0]]`. -/
theorem Post_process_orthonormal :
    (∀ (n p : ℕ)
      (svd : Matrix (Fin n) (Fin p) ℚ →
        Matrix (Fin n) (Fin p) ℚ × (Fin p → ℚ) × Matrix (Fin p) (Fin p) ℚ)
      (X : Matrix (Fin n) (Fin p) ℚ),
      ((svd X).1)ᵀ * (svd X).1 = 1 → ((svd X).2.2)ᵀ * (svd X).2.2 = 1 →
      (Post_process svd X)ᵀ * Post_process svd X = 1)
    ∧ (∀ (U : Matrix (Fin 3) (Fin 1) ℚ) (S : Fin 1 → ℚ)
        (Vh : Matrix (Fin 1) (Fin 1) ℚ),
      !![(2:ℚ); 0; 0] = U * Matrix.diagonal S * Vh →
      Uᵀ * U = 1 → Vhᵀ * Vh = 1 → 0 ≤ S 0 →
      Post_process (fun _ => (U, S, Vh)) !![(2:ℚ); 0; 0] = !![(1:ℚ); 0; 0]) := by
  constructor
  · intro n p svd X hU hV
    rw [Post_process, Matrix.transpose_mul, Matrix.mul_assoc,
      ← Matrix.mul_assoc ((svd X).1)ᵀ, hU, Matrix.one_mul, hV]
  · intro U S Vh hX hU hV hS
    have h0 : (!![(2:ℚ); 0; 0]) 0 0 = (U * Matrix.diagonal S * Vh) 0 0 := by rw [hX]
    have h1 : (!![(2:ℚ); 0; 0]) 1 0 = (U * Matrix.diagonal S * Vh) 1 0 := by rw [hX]
    have h2 : (!![(2:ℚ); 0; 0]) 2 0 = (U * Matrix.diagonal S * Vh) 2 0 := by rw [hX]
    norm_num [Matrix.mul_apply, Matrix.diagonal_apply, Fin.sum_univ_one,
      Matrix.vecHead, Matrix.vecTail] at h0 h1 h2
    have hv : (Vhᵀ * Vh) 0 0 = (1 : Matrix (Fin 1) (Fin 1) ℚ) 0 0 := by rw [hV]
    have hu : (Uᵀ * U) 0 0 = (1 : Matrix (Fin 1) (Fin 1) ℚ) 0 0 := by rw [hU]
    norm_num [Matrix.mul_apply, Matrix.one_apply, Fin.sum_univ_one,
      Fin.sum_univ_three] at hv hu
    have hvne : Vh 0 0 ≠ 0 := by
      intro h
      rw [h, mul_zero] at hv
      exact one_ne_zero hv.symm
    have hsne : S 0 ≠ 0 := by
      intro h
      rw [h] at h0
      norm_num at h0
    have hu1 : U 1 0 = 0 := by
      rcases h1 with (h | h) | h
      · exact h
      · exact absurd h hsne
      · exact absurd h hvne
    have hu2 : U 2 0 = 0 := by
      rcases h2 with (h | h) | h
      · exact h
      · exact absurd h hsne
      · exact absurd h hvne
    have hu0sq : U 0 0 * U 0 0 = 1 := by
      rw [hu1, hu2] at hu
      simpa using hu
    have hw : U 0 0 * Vh 0 0 = 1 := by
      have hw2 : (U 0 0 * Vh 0 0) * (U 0 0 * Vh 0 0) = 1 := by
        rw [mul_mul_mul_comm, hu0sq, hv, one_mul]
      have hfac : (U 0 0 * Vh 0 0 - 1) * (U 0 0 * Vh 0 0 + 1) = 0 := by
        linear_combination hw2
      rcases mul_eq_zero.mp hfac with h | h
      · linarith
      · exfalso
        have hs2 : (2 : ℚ) = S 0 * (U 0 0 * Vh 0 0) := by linear_combination h0
        have hwneg : U 0 0 * Vh 0 0 = -1 := by linarith
        rw [hwneg] at hs2
        linarith
    rw [Post_process]
    ext i j
    fin_cases i <;> fin_cases j <;>
      simp [Matrix.mul_apply, Fin.sum_univ_one, Matrix.vecHead, Matrix.vecTail,
        hu1, hu2, hw]

/-- Witness for C5: the general part at the constant collaborator returning
the 1×1 identity SVD, and the concrete part at `U = [[1],[0],[0]]`,
`S = (2)`, `Vh = [[1]]`. -/
theorem Post_process_orthonormal_witness :
    (((fun _ : Matrix (Fin 1) (Fin 1) ℚ =>
          (!![(1:ℚ)], fun _ : Fin 1 => (1:ℚ), !![(1:ℚ)])) !![(3:ℚ)]).1ᵀ *
        ((fun _ : Matrix (Fin 1) (Fin 1) ℚ =>
          (!![(1:ℚ)], fun _ : Fin 1 => (1:ℚ), !![(1:ℚ)])) !![(3:ℚ)]).1 = 1)
    ∧ ((Post_process (fun _ => (!![(1:ℚ)], fun _ : Fin 1 => (1:ℚ), !![(1:ℚ)])) !![(3:ℚ)])ᵀ *
        Post_process (fun _ => (!![(1:ℚ)], fun _ : Fin 1 => (1:ℚ), !![(1:ℚ)])) !![(3:ℚ)] = 1)
    ∧ (!![(2:ℚ); 0; 0] = !![(1:ℚ); 0; 0] * Matrix.diagonal (fun _ : Fin 1 => (2:ℚ)) * !![(1:ℚ)])
    ∧ Post_process (fun _ => (!![(1:ℚ); 0; 0], fun _ : Fin 1 => (2:ℚ), !![(1:ℚ)]))
        !![(2:ℚ); 0; 0] = !![(1:ℚ); 0; 0] := by
  have hU1 : (!![(1:ℚ)])ᵀ * !![(1:ℚ)] = 1 := by
    simp [Matrix.mul_apply, ← Matrix.ext_iff, Fin.forall_fin_one]
  have hX0 : !![(2:ℚ); 0; 0] =
      !![(1:ℚ); 0; 0] * Matrix.diagonal (fun _ : Fin 1 => (2:ℚ)) * !![(1:ℚ)] := by
    ext i j
    fin_cases i <;> fin_cases j <;>
      norm_num [Matrix.mul_apply, Matrix.diagonal_apply, Fin.sum_univ_one,
        Matrix.vecHead, Matrix.vecTail]
  have hU0 : (!![(1:ℚ); 0; 0])ᵀ * !![(1:ℚ); 0; 0] = 1 := by
    ext i j
    fin_cases i <;> fin_cases j <;>
      norm_num [Matrix.mul_apply, Matrix.one_apply, Fin.sum_univ_three,
        Matrix.vecHead, Matrix.vecTail]
  exact ⟨hU1,
    Post_process_orthonormal.1 1 1
      (fun _ => (!![(1:ℚ)], fun _ : Fin 1 => (1:ℚ), !![(1:ℚ)])) !![(3:ℚ)] hU1 hU1,
    hX0,
    Post_process_orthonormal.2 !![(1:ℚ); 0; 0] (fun _ : Fin 1 => (2:ℚ)) !![(1:ℚ)]
      hX0 hU0 hU1 (by norm_num)⟩

/-- C7: the source performs no shape validation.  `Phi` applied to the
non-square 1×3 matrix `[[1, 2, 3]]` does not fail: numpy broadcasting
silently coerces the shapes and `(M + M.T)/2` evaluates to a full 3×3
result (entry `(0,2)` is `(3 + 1)/2 = 2`); only a non-broadcastable shape
such as 2×3 raises, and then it is the library's `ValueError`, not a
`ShapeMismatch` check of the operator. -/
theorem Phi_nonsquare_silent_coercion :
    ((NMat.PhiDyn ⟨1, 3, fun _ j => if j = 0 then 1 else if j = 1 then 2 else 3⟩).map
        NMat.rows = some 3)
    ∧ ((NMat.PhiDyn ⟨1, 3, fun _ j => if j = 0 then 1 else if j = 1 then 2 else 3⟩).map
        NMat.cols = some 3)
    ∧ ((NMat.PhiDyn ⟨1, 3, fun _ j => if j = 0 then 1 else if j = 1 then 2 else 3⟩).map
        (fun P => P.entry 0 2) = some 2)
    ∧ NMat.PhiDyn ⟨2, 3, fun _ j => if j = 0 then 1 else if j = 1 then 2 else 3⟩ = none := by
  refine ⟨rfl, rfl, ?_, rfl⟩
  norm_num [NMat.PhiDyn, NMat.nadd, NMat.ntranspose, NMat.bdim, NMat.bidx, NMat.nsmul]

/-- C8 (amended): every operator invoked with explicit arguments is a pure
function of those arguments: in the state-passing world the call returns
the operator's value and passes the ambient PRNG state through unchanged
(so two calls with identical arguments return identical results), while
`Init_point()` with no `Xinit` reads the drawn matrix from the PRNG state
and advances that state. -/
theorem operators_pure :
    (∀ (σ : Type) (s : σ) (a : ℕ) (M : Matrix (Fin a) (Fin a) ℚ),
      callOp Phi s M = (Phi M, s))
    ∧ (∀ (σ : Type) (s : σ) (n p : ℕ) (X : Matrix (Fin n) (Fin p) ℚ),
      callOp A s X = (A X, s))
    ∧ (∀ (σ : Type) (s : σ) (n p : ℕ) (X G : Matrix (Fin n) (Fin p) ℚ),
      callOp (fun q : Matrix (Fin n) (Fin p) ℚ × Matrix (Fin n) (Fin p) ℚ =>
        JA q.1 q.2) s (X, G) = (JA X G, s))
    ∧ (∀ (σ : Type) (s : σ) (n p : ℕ) (X G : Matrix (Fin n) (Fin p) ℚ),
      callOp (fun q : Matrix (Fin n) (Fin p) ℚ × Matrix (Fin n) (Fin p) ℚ =>
        JA_exact q.1 q.2) s (X, G) = (JA_exact X G, s))
    ∧ (∀ (σ : Type) (s : σ) (n p : ℕ) (X : Matrix (Fin n) (Fin p) ℚ)
        (L : Matrix (Fin p) (Fin p) ℚ),
      callOp (fun q : Matrix (Fin n) (Fin p) ℚ × Matrix (Fin p) (Fin p) ℚ =>
        JC q.1 q.2) s (X, L) = (JC X L, s))
    ∧ (∀ (σ : Type) (s : σ) (n p : ℕ) (X : Matrix (Fin n) (Fin p) ℚ),
      callOp C s X = (C X, s))
    ∧ (∀ (σ : Type) (s : σ) (n p : ℕ) (X : Matrix (Fin n) (Fin p) ℚ),
      callOp Feas_eval_sq s X = (Feas_eval_sq X, s))
    ∧ (∀ (σ : Type) (s : σ) (n p : ℕ)
        (qr : Matrix (Fin n) (Fin p) ℚ → Matrix (Fin n) (Fin p) ℚ × Matrix (Fin p) (Fin p) ℚ)
        (X : Matrix (Fin n) (Fin p) ℚ),
      callOp (Init_point qr) s X = (Init_point qr X, s))
    ∧ (∀ (σ : Type) (s : σ) (n p : ℕ)
        (svd : Matrix (Fin n) (Fin p) ℚ →
          Matrix (Fin n) (Fin p) ℚ × (Fin p → ℚ) × Matrix (Fin p) (Fin p) ℚ)
        (X : Matrix (Fin n) (Fin p) ℚ),
      callOp (Post_process svd) s X = (Post_process svd X, s))
    ∧ (∀ (σ : Type) (s : σ) (a b : ℤ),
      callOp (fun q : ℤ × ℤ => init q.1 q.2) s (a, b) = (init a b, s))
    ∧ (∀ (σ : Type) (n p : ℕ)
        (qr : Matrix (Fin n) (Fin p) ℚ → Matrix (Fin n) (Fin p) ℚ × Matrix (Fin p) (Fin p) ℚ)
        (d : σ → Matrix (Fin n) (Fin p) ℚ × σ) (s : σ),
      Init_point_draw qr d s = (Init_point qr (d s).1, (d s).2)) :=
  ⟨fun _ _ _ _ => rfl, fun _ _ _ _ _ => rfl, fun _ _ _ _ _ _ => rfl,
   fun _ _ _ _ _ _ => rfl, fun _ _ _ _ _ _ => rfl, fun _ _ _ _ _ => rfl,
   fun _ _ _ _ _ => rfl, fun _ _ _ _ _ _ => rfl, fun _ _ _ _ _ _ => rfl,
   fun _ _ _ _ => rfl, fun _ _ _ _ _ _ => rfl⟩

/-- Counterexample to C8 as stated: `Init_point()` with no `Xinit` is not a
pure function of its (empty) argument list and `(n, p)`.  With the PRNG
collaborator that alternately draws `[[1]]` and `[[-1]]` (both feasible, so
the QR branch never fires and the QR collaborator is irrelevant), the call
from the advanced state returns a different matrix than the first call. -/
theorem Init_point_draw_nondeterministic :
    (Init_point_draw (fun Y => (Y, 1))
        (fun k : ℕ => (if k % 2 = 0 then (1 : Matrix (Fin 1) (Fin 1) ℚ) else -1, k + 1))
        ((Init_point_draw (fun Y => (Y, 1))
          (fun k : ℕ => (if k % 2 = 0 then (1 : Matrix (Fin 1) (Fin 1) ℚ) else -1, k + 1))
          0).2)).1
    ≠ (Init_point_draw (fun Y => (Y, 1))
        (fun k : ℕ => (if k % 2 = 0 then (1 : Matrix (Fin 1) (Fin 1) ℚ) else -1, k + 1))
        0).1 := by
  have hfeas1 : Feas_eval_sq (1 : Matrix (Fin 1) (Fin 1) ℚ) = 0 := by
    norm_num [Feas_eval_sq, frobSq, C, Matrix.mul_apply, Matrix.one_apply, Fin.sum_univ_one]
  have hfeasm : Feas_eval_sq (-1 : Matrix (Fin 1) (Fin 1) ℚ) = 0 := by
    norm_num [Feas_eval_sq, frobSq, C, Matrix.mul_apply, Matrix.one_apply, Fin.sum_univ_one,
      Matrix.neg_apply]
  intro hcontra
  simp only [Init_point_draw] at hcontra
  norm_num [Init_point, hfeas1, hfeasm] at hcontra
  have h00 := congrFun (congrFun hcontra 0) 0
  norm_num [Matrix.neg_apply, Matrix.one_apply] at h00
